import Mathlib

/-!
Shallow embedding of the vocabulary-match engine of the
dk-illustrated-dictionary repository (scripts/process_full_book.py,
with the same logic mirrored in scripts/regenerate_data.py and the
token-level parts in scripts/preprocess_pdf.py).

Text is modelled as `List Char`; the ASCII fragment of Python's string
and regex semantics (the vocabulary and the relevant token texts are
ASCII) is embedded faithfully:
  * `englishMatch` embeds `re.compile(r'^[a-zA-Z]+$').match(text)`,
    including the Python `$` rule that also accepts a single trailing
    newline;
  * `searchWordBounded` embeds
    `re.search(r'\b' + re.escape(phrase) + r'\b', line_lower)` —
    `re.escape` makes the phrase literal, and `\b` is the regex word
    boundary (word characters: letters, digits, underscore);
  * `round3` embeds Python's `round(y, 3)` (round-half-to-even) on
    exact rationals;
  * coordinates (normalized floats in the source) are modelled as `Rat`.
-/

abbrev Str := List Char

def str (s : String) : Str := s.data

/-- ASCII letter, the character class `[a-zA-Z]` of the English filter. -/
def isAsciiLetter (c : Char) : Bool :=
  ('a' ≤ c && c ≤ 'z') || ('A' ≤ c && c ≤ 'Z')

/-- ASCII digit `[0-9]`. -/
def isAsciiDigit (c : Char) : Bool := '0' ≤ c && c ≤ '9'

/-- Regex word character (`\w` over ASCII): letter, digit or underscore. -/
def isWordChar (c : Char) : Bool :=
  isAsciiLetter c || isAsciiDigit c || c == '_'

/-- The whitespace characters removed by Python's `str.strip()` (ASCII part). -/
def pyIsSpace (c : Char) : Bool :=
  c == ' ' || c == '\t' || c == '\n' || c == '\r' ||
  c == Char.ofNat 12 || c == Char.ofNat 11

/-- Python `str.lower()` on the ASCII fragment. -/
def lowerStr (s : Str) : Str := s.map Char.toLower

/-- Python `str.strip()`: drop leading and trailing whitespace. -/
def pyStrip (s : Str) : Str :=
  ((s.dropWhile pyIsSpace).reverse.dropWhile pyIsSpace).reverse

/-- The English-word test `re.compile(r'^[a-zA-Z]+$').match`: one or more ASCII
letters; Python's `$` also matches just before a single trailing newline. -/
def allLetters (s : Str) : Bool := !s.isEmpty && s.all isAsciiLetter

def englishMatch (s : Str) : Bool :=
  allLetters s || (s.getLast? == some '\n' && allLetters s.dropLast)

/-- Is the character at index `i` (if any) a word character? Out-of-range
positions count as non-word, as at the ends of a regex subject. -/
def wordAt (s : Str) (i : Nat) : Bool :=
  match s.get? i with
  | some c => isWordChar c
  | none => false

/-- The regex `\b` word boundary at position `i` of `s`: the word-character
status changes between positions `i-1` and `i`. -/
def boundaryAt (s : Str) (i : Nat) : Bool :=
  (if i = 0 then false else wordAt s (i - 1)) != wordAt s i

/-- The literal phrase `p` occurs in `s` at position `i` with a `\b`
boundary on both ends. -/
def occursWordBoundedAt (p s : Str) (i : Nat) : Bool :=
  p.isPrefixOf (s.drop i) && boundaryAt s i && boundaryAt s (i + p.length)

/-- The test `re.search(r'\b' + re.escape(p) + r'\b', s)` as a Boolean: some
position of `s` carries a word-bounded occurrence of the literal `p`. -/
def searchWordBounded (p s : Str) : Bool :=
  (List.range (s.length + 1)).any (occursWordBoundedAt p s)

/-- Python's `round` to an integer: round half to even. -/
def roundHalfEven (q : Rat) : Int :=
  if q - ⌊q⌋ < 1/2 then ⌊q⌋
  else if q - ⌊q⌋ > 1/2 then ⌊q⌋ + 1
  else if ⌊q⌋ % 2 = 0 then ⌊q⌋ else ⌊q⌋ + 1

/-- Python's `round(q, 3)`. -/
def round3 (q : Rat) : Rat := (roundHalfEven (q * 1000) : Rat) / 1000

/-- An OCR line record: `{'text', 'x', 'y', 'width', 'height'}`. -/
structure Line where
  text : Str
  x : Rat
  y : Rat
  width : Rat
  height : Rat
deriving DecidableEq

/-- A raw OCR token record before annotation:
`{'text', 'x', 'y', 'width', 'height', 'confidence'}`. -/
structure Token where
  text : Str
  x : Rat
  y : Rat
  width : Rat
  height : Rat
  confidence : Rat
deriving DecidableEq

/-- A token record after the matcher added `'is_learning_word'`; phrase
matches are emitted in this same shape. -/
structure AnnToken where
  text : Str
  x : Rat
  y : Rat
  width : Rat
  height : Rat
  confidence : Rat
  is_learning_word : Bool
deriving DecidableEq

/-- The filter `english_words = [w for w in words if english_pattern.match(w['text'])]`. -/
def filterEnglish (ws : List Token) : List Token :=
  ws.filter (fun w => englishMatch w.text)

/-- The single-word matching loop body: `word['is_learning_word'] =
word['text'].lower() in single_word_vocab`, all other fields copied. -/
def annotate (vocab : List Str) (w : Token) : AnnToken :=
  { text := w.text, x := w.x, y := w.y, width := w.width, height := w.height,
    confidence := w.confidence,
    is_learning_word := decide (lowerStr w.text ∈ vocab) }

def singleWordMatcher (vocab : List Str) (ws : List Token) : List AnnToken :=
  ws.map (annotate vocab)

/-- The counter `single_word_matches`: the number of tokens for which `is_learning`
was true during the loop. -/
def singleWordMatchCount (vocab : List Str) (ws : List Token) : Nat :=
  (ws.filter (fun w => decide (lowerStr w.text ∈ vocab))).length

/-- The dedup key `(page_key, vocab_phrase, round(line['y'], 3))`. -/
abbrev MatchKey := Str × Str × Rat

/-- The dict appended to `multi_word_matches` on a phrase hit. -/
def mkPhraseMatch (p : Str) (l : Line) : AnnToken :=
  { text := p, x := l.x, y := l.y, width := l.width, height := l.height,
    confidence := 1, is_learning_word := true }

/-- The mutable state of the phrase-matching loop: the `matched_phrases`
set (modelled as a list with membership) and the `multi_word_matches`
output list. -/
structure PMState where
  matched_phrases : List MatchKey
  multi_word_matches : List AnnToken

/-- Body of the inner loop `for vocab_phrase in multi_word_vocab`. -/
def stepPhrase (pageKey : Str) (l : Line) (st : PMState) (p : Str) : PMState :=
  if searchWordBounded p (lowerStr l.text) then
    let key : MatchKey := (pageKey, p, round3 l.y)
    if key ∈ st.matched_phrases then st
    else { matched_phrases := key :: st.matched_phrases,
           multi_word_matches := st.multi_word_matches ++ [mkPhraseMatch p l] }
  else st

/-- Body of the outer loop `for line in lines`. -/
def stepLine (pageKey : Str) (vocab : List Str) (st : PMState) (l : Line) : PMState :=
  vocab.foldl (stepPhrase pageKey l) st

def runPhrases (pageKey : Str) (vocab : List Str) (ls : List Line) (st : PMState) : PMState :=
  ls.foldl (stepLine pageKey vocab) st

/-- The phrase matcher for one page: run both loops from the empty state
and return `multi_word_matches`. -/
def phraseMatcher (pageKey : Str) (vocab : List Str) (ls : List Line) : List AnnToken :=
  (runPhrases pageKey vocab ls ⟨[], []⟩).multi_word_matches

/-- The per-page output record `all_pages_data[page_key]` (without the
`image` path, which is file plumbing outside the matching core). -/
structure PageResult where
  words : List AnnToken
  total_words_extracted : Nat
  english_words : Nat
  matched_words : Nat
  single_word_matches : Nat
  multi_word_matches : Nat
deriving DecidableEq

/-- The per-page pipeline of process_full_book.py lines 167-221: filter to
English tokens, annotate them against the single-word vocabulary, run the
phrase matcher on the lines, and aggregate. -/
def processPage (pageKey : Str) (singleVocab phraseVocab : List Str)
    (words : List Token) (lines : List Line) : PageResult :=
  let english := filterEnglish words
  let annotated := singleWordMatcher singleVocab english
  let swCount := singleWordMatchCount singleVocab english
  let mw := phraseMatcher pageKey phraseVocab lines
  { words := annotated ++ mw,
    total_words_extracted := words.length,
    english_words := english.length,
    matched_words := swCount + mw.length,
    single_word_matches := swCount,
    multi_word_matches := mw.length }

/-- One iteration of the vocabulary-loading loop: `word = line.strip()`,
keep it when `word and not word.startswith('#')`, then lowercase. -/
def cleanLine (l : Str) : Option Str :=
  let w := pyStrip l
  if w ≠ [] ∧ w.head? ≠ some '#' then some (lowerStr w) else none

/-- Add one line's entry (if kept) to the pair
`(single_word_vocab, multi_word_vocab)`, partitioning on `' ' in word_lower`. -/
def vocabStep (acc : Finset Str × Finset Str) (l : Str) : Finset Str × Finset Str :=
  match cleanLine l with
  | none => acc
  | some w => if ' ' ∈ w then (acc.1, insert w acc.2) else (insert w acc.1, acc.2)

/-- The vocabulary loader of process_full_book.py lines 46-56 (the same
loop appears in regenerate_data.py lines 34-44), over an already
line-split input. -/
def loadVocab (ls : List Str) : Finset Str × Finset Str :=
  ls.foldl vocabStep (∅, ∅)

/-- The loader step as the specification sentence words it, for comparison
with `cleanLine`: first ignore blank lines and lines starting with `'#'`,
then lowercase and trim each remaining line. -/
def cleanLineClaim (l : Str) : Option Str :=
  if l.all pyIsSpace ∨ l.head? = some '#' then none
  else some (pyStrip (lowerStr l))

def vocabStepClaim (acc : Finset Str × Finset Str) (l : Str) : Finset Str × Finset Str :=
  match cleanLineClaim l with
  | none => acc
  | some w => if ' ' ∈ w then (acc.1, insert w acc.2) else (insert w acc.1, acc.2)

/-- The vocabulary loader as the claim describes it, for comparison with
`loadVocab`. -/
def loadVocabClaim (ls : List Str) : Finset Str × Finset Str :=
  ls.foldl vocabStepClaim (∅, ∅)

/-- Is the character at index `i` (if any) an ASCII letter? -/
def letterAt (s : Str) (i : Nat) : Bool :=
  match s.get? i with
  | some c => isAsciiLetter c
  | none => false

/-- The phrase-occurrence condition as the claim words it, for comparison
with `searchWordBounded`: `p` occurs in `s` bounded on both ends by
non-letter characters or the start/end of the text. -/
def claimBoundedOccurs (p s : Str) : Bool :=
  (List.range (s.length + 1)).any fun i =>
    p.isPrefixOf (s.drop i) &&
    (decide (i = 0) || !(letterAt s (i - 1))) &&
    (decide (i + p.length = s.length) || !(letterAt s (i + p.length)))

/-! ## Helper lemmas -/

lemma roundHalfEven_of_lt_half (q : Rat) (n : Int) (h1 : (n : Rat) ≤ q)
    (h2 : q - (n : Rat) < 1/2) : roundHalfEven q = n := by
  have hf : ⌊q⌋ = n := Int.floor_eq_iff.2 ⟨h1, by linarith⟩
  unfold roundHalfEven
  rw [hf, if_pos (by linarith)]

lemma round3_of_lt_half (q : Rat) (n : Int) (h1 : (n : Rat) ≤ q * 1000)
    (h2 : q * 1000 - (n : Rat) < 1/2) : round3 q = (n : Rat) / 1000 := by
  unfold round3
  rw [roundHalfEven_of_lt_half (q * 1000) n h1 h2]

lemma foldl_preserve_mem {α β : Type} (f : β → α → β) (P : β → Prop) :
    ∀ (l : List α) (b : β), (∀ b' a, a ∈ l → P b' → P (f b' a)) → P b →
      P (l.foldl f b) := by
  intro l
  induction l with
  | nil => intro b _ hb; simpa using hb
  | cons x xs ih =>
    intro b h hb
    simp only [List.foldl_cons]
    exact ih _ (fun b' a ha hb' => h b' a (List.mem_cons_of_mem _ ha) hb')
      (h b x (List.mem_cons_self _ _) hb)

lemma foldl_reach {α β : Type} (f : β → α → β) (Q : β → Prop) :
    ∀ (l : List α) (b : β) (a : α), a ∈ l → (∀ b', Q (f b' a)) →
      (∀ b' x, Q b' → Q (f b' x)) → Q (l.foldl f b) := by
  intro l
  induction l with
  | nil => intro b a ha _ _; exact absurd ha (List.not_mem_nil a)
  | cons x xs ih =>
    intro b a ha hset hkeep
    simp only [List.foldl_cons]
    rcases List.mem_cons.mp ha with rfl | ha'
    · exact foldl_preserve_mem f Q xs (f b a) (fun b' y _ => hkeep b' y) (hset b)
    · exact ih (f b x) a ha' hset hkeep

lemma stepPhrase_matched_mono (pk : Str) (l : Line) (st : PMState) (p : Str)
    (k : MatchKey) (h : k ∈ st.matched_phrases) :
    k ∈ (stepPhrase pk l st p).matched_phrases := by
  by_cases h1 : searchWordBounded p (lowerStr l.text) = true
  · by_cases h2 : ((pk, p, round3 l.y) : MatchKey) ∈ st.matched_phrases
    · simp [stepPhrase, h1, h2, h]
    · simp only [stepPhrase, h1, if_true, h2, if_neg h2, if_false]
      exact List.mem_cons_of_mem _ h
  · simp [stepPhrase, h1, h]

lemma stepPhrase_out_mono (pk : Str) (l : Line) (st : PMState) (p : Str)
    (pm : AnnToken) (h : pm ∈ st.multi_word_matches) :
    pm ∈ (stepPhrase pk l st p).multi_word_matches := by
  by_cases h1 : searchWordBounded p (lowerStr l.text) = true
  · by_cases h2 : ((pk, p, round3 l.y) : MatchKey) ∈ st.matched_phrases
    · simp [stepPhrase, h1, h2, h]
    · simp only [stepPhrase, h1, if_true, if_neg h2]
      exact List.mem_append_left _ h
  · simp [stepPhrase, h1, h]

lemma stepPhrase_key_mem (pk : Str) (l : Line) (st : PMState) (p : Str)
    (h1 : searchWordBounded p (lowerStr l.text) = true) :
    ((pk, p, round3 l.y) : MatchKey) ∈ (stepPhrase pk l st p).matched_phrases := by
  by_cases h2 : ((pk, p, round3 l.y) : MatchKey) ∈ st.matched_phrases
  · simp [stepPhrase, h1, h2]
  · simp only [stepPhrase, h1, if_true, if_neg h2]
    exact List.mem_cons_self _ _

lemma stepPhrase_out_cases (pk : Str) (l : Line) (st : PMState) (p : Str)
    (pm : AnnToken) (h : pm ∈ (stepPhrase pk l st p).multi_word_matches) :
    pm ∈ st.multi_word_matches ∨
      (pm = mkPhraseMatch p l ∧ searchWordBounded p (lowerStr l.text) = true) := by
  by_cases h1 : searchWordBounded p (lowerStr l.text) = true
  · by_cases h2 : ((pk, p, round3 l.y) : MatchKey) ∈ st.matched_phrases
    · simp only [stepPhrase, h1, if_true, if_pos h2] at h
      exact Or.inl h
    · simp only [stepPhrase, h1, if_true, if_neg h2] at h
      rcases List.mem_append.mp h with h' | h'
      · exact Or.inl h'
      · exact Or.inr ⟨List.mem_singleton.mp h', h1⟩
  · simp only [stepPhrase, h1] at h
    exact Or.inl (by simpa using h)

lemma stepLine_matched_mono (pk : Str) (vocab : List Str) (st : PMState)
    (l : Line) (k : MatchKey) (h : k ∈ st.matched_phrases) :
    k ∈ (stepLine pk vocab st l).matched_phrases :=
  foldl_preserve_mem (stepPhrase pk l) (fun s => k ∈ s.matched_phrases) vocab st
    (fun b a _ hb => stepPhrase_matched_mono pk l b a k hb) h

lemma stepLine_out_mono (pk : Str) (vocab : List Str) (st : PMState)
    (l : Line) (pm : AnnToken) (h : pm ∈ st.multi_word_matches) :
    pm ∈ (stepLine pk vocab st l).multi_word_matches :=
  foldl_preserve_mem (stepPhrase pk l) (fun s => pm ∈ s.multi_word_matches) vocab st
    (fun b a _ hb => stepPhrase_out_mono pk l b a pm hb) h

lemma stepLine_key_mem (pk : Str) (vocab : List Str) (st : PMState) (l : Line)
    (p : Str) (hp : p ∈ vocab) (h1 : searchWordBounded p (lowerStr l.text) = true) :
    ((pk, p, round3 l.y) : MatchKey) ∈ (stepLine pk vocab st l).matched_phrases :=
  foldl_reach (stepPhrase pk l) (fun s => ((pk, p, round3 l.y) : MatchKey) ∈ s.matched_phrases)
    vocab st p hp (fun b => stepPhrase_key_mem pk l b p h1)
    (fun b x hb => stepPhrase_matched_mono pk l b x _ hb)

lemma runPhrases_key_mem (pk : Str) (vocab : List Str) (ls : List Line)
    (st : PMState) (l : Line) (p : Str) (hl : l ∈ ls) (hp : p ∈ vocab)
    (h1 : searchWordBounded p (lowerStr l.text) = true) :
    ((pk, p, round3 l.y) : MatchKey) ∈ (runPhrases pk vocab ls st).matched_phrases :=
  foldl_reach (stepLine pk vocab)
    (fun s => ((pk, p, round3 l.y) : MatchKey) ∈ s.matched_phrases) ls st l hl
    (fun b => stepLine_key_mem pk vocab b l p hp h1)
    (fun b x hb => stepLine_matched_mono pk vocab b x _ hb)

lemma stepPhrase_inv_out (pk : Str) (l : Line) (st : PMState) (p : Str)
    (h : ∀ k ∈ st.matched_phrases, ∃ pm ∈ st.multi_word_matches, pm.text = k.2.1) :
    ∀ k ∈ (stepPhrase pk l st p).matched_phrases,
      ∃ pm ∈ (stepPhrase pk l st p).multi_word_matches, pm.text = k.2.1 := by
  by_cases h1 : searchWordBounded p (lowerStr l.text) = true
  · by_cases h2 : ((pk, p, round3 l.y) : MatchKey) ∈ st.matched_phrases
    · simpa [stepPhrase, h1, h2] using h
    · simp only [stepPhrase, h1, if_true, if_neg h2]
      intro k hk
      rcases List.mem_cons.mp hk with rfl | hk'
      · exact ⟨mkPhraseMatch p l, List.mem_append_right _ (List.mem_singleton.mpr rfl), rfl⟩
      · rcases h k hk' with ⟨pm, hpm, ht⟩
        exact ⟨pm, List.mem_append_left _ hpm, ht⟩
  · simpa [stepPhrase, h1] using h

lemma runPhrases_inv_out (pk : Str) (vocab : List Str) (ls : List Line)
    (st : PMState)
    (h : ∀ k ∈ st.matched_phrases, ∃ pm ∈ st.multi_word_matches, pm.text = k.2.1) :
    ∀ k ∈ (runPhrases pk vocab ls st).matched_phrases,
      ∃ pm ∈ (runPhrases pk vocab ls st).multi_word_matches, pm.text = k.2.1 := by
  apply foldl_preserve_mem (stepLine pk vocab)
    (fun s => ∀ k ∈ s.matched_phrases, ∃ pm ∈ s.multi_word_matches, pm.text = k.2.1)
    ls st ?_ h
  intro b a _ hb
  apply foldl_preserve_mem (stepPhrase pk a)
    (fun s => ∀ k ∈ s.matched_phrases, ∃ pm ∈ s.multi_word_matches, pm.text = k.2.1)
    vocab b ?_ hb
  intro b' p _ hb'
  exact stepPhrase_inv_out pk a b' p hb'

lemma runPhrases_out_sound (pk : Str) (vocab : List Str) (ls : List Line) :
    ∀ pm ∈ (runPhrases pk vocab ls ⟨[], []⟩).multi_word_matches,
      ∃ l ∈ ls, searchWordBounded pm.text (lowerStr l.text) = true := by
  apply foldl_preserve_mem (stepLine pk vocab)
    (fun s => ∀ pm ∈ s.multi_word_matches,
      ∃ l ∈ ls, searchWordBounded pm.text (lowerStr l.text) = true)
    ls ⟨[], []⟩ ?_ (by simp [PMState.multi_word_matches])
  intro b a ha hb
  apply foldl_preserve_mem (stepPhrase pk a)
    (fun s => ∀ pm ∈ s.multi_word_matches,
      ∃ l ∈ ls, searchWordBounded pm.text (lowerStr l.text) = true)
    vocab b ?_ hb
  intro b' p _ hb' pm hpm
  rcases stepPhrase_out_cases pk a b' p pm hpm with h' | ⟨rfl, hs⟩
  · exact hb' pm h'
  · exact ⟨a, ha, hs⟩

lemma stepPhrase_keys (pk : Str) (l : Line) (st : PMState) (p : Str)
    (hkeys : ∀ pm ∈ st.multi_word_matches,
      ((pk, pm.text, round3 pm.y) : MatchKey) ∈ st.matched_phrases)
    (hpw : st.multi_word_matches.Pairwise
      (fun a b => ¬(a.text = b.text ∧ round3 a.y = round3 b.y))) :
    (∀ pm ∈ (stepPhrase pk l st p).multi_word_matches,
      ((pk, pm.text, round3 pm.y) : MatchKey) ∈ (stepPhrase pk l st p).matched_phrases) ∧
    (stepPhrase pk l st p).multi_word_matches.Pairwise
      (fun a b => ¬(a.text = b.text ∧ round3 a.y = round3 b.y)) := by
  by_cases h1 : searchWordBounded p (lowerStr l.text) = true
  · by_cases h2 : ((pk, p, round3 l.y) : MatchKey) ∈ st.matched_phrases
    · simp only [stepPhrase, h1, if_true, if_pos h2]
      exact ⟨hkeys, hpw⟩
    · simp only [stepPhrase, h1, if_true, if_neg h2]
      constructor
      · intro pm hpm
        rcases List.mem_append.mp hpm with h' | h'
        · exact List.mem_cons_of_mem _ (hkeys pm h')
        · rw [List.mem_singleton.mp h']
          exact List.mem_cons_self _ _
      · rw [List.pairwise_append]
        refine ⟨hpw, List.pairwise_singleton _ _, ?_⟩
        intro a ha b hb
        rw [List.mem_singleton.mp hb]
        intro hab
        apply h2
        have hka : ((pk, a.text, round3 a.y) : MatchKey) ∈ st.matched_phrases :=
          hkeys a ha
        have h3 : a.text = p := hab.1
        have h4 : round3 a.y = round3 l.y := hab.2
        rw [h3, h4] at hka
        exact hka
  · simp only [stepPhrase, h1, if_false, Bool.false_eq_true]
    exact ⟨hkeys, hpw⟩

lemma runPhrases_keys (pk : Str) (vocab : List Str) (ls : List Line)
    (st : PMState)
    (hkeys : ∀ pm ∈ st.multi_word_matches,
      ((pk, pm.text, round3 pm.y) : MatchKey) ∈ st.matched_phrases)
    (hpw : st.multi_word_matches.Pairwise
      (fun a b => ¬(a.text = b.text ∧ round3 a.y = round3 b.y))) :
    (∀ pm ∈ (runPhrases pk vocab ls st).multi_word_matches,
      ((pk, pm.text, round3 pm.y) : MatchKey) ∈ (runPhrases pk vocab ls st).matched_phrases) ∧
    (runPhrases pk vocab ls st).multi_word_matches.Pairwise
      (fun a b => ¬(a.text = b.text ∧ round3 a.y = round3 b.y)) := by
  apply foldl_preserve_mem (stepLine pk vocab)
    (fun s => (∀ pm ∈ s.multi_word_matches,
        ((pk, pm.text, round3 pm.y) : MatchKey) ∈ s.matched_phrases) ∧
      s.multi_word_matches.Pairwise
        (fun a b => ¬(a.text = b.text ∧ round3 a.y = round3 b.y)))
    ls st ?_ ⟨hkeys, hpw⟩
  intro b a _ hb
  apply foldl_preserve_mem (stepPhrase pk a)
    (fun s => (∀ pm ∈ s.multi_word_matches,
        ((pk, pm.text, round3 pm.y) : MatchKey) ∈ s.matched_phrases) ∧
      s.multi_word_matches.Pairwise
        (fun a b => ¬(a.text = b.text ∧ round3 a.y = round3 b.y)))
    vocab b ?_ hb
  intro b' p _ hb'
  exact stepPhrase_keys pk a b' p hb'.1 hb'.2

/-! ## Claim theorems -/

/-- C1 (amended): for every phrase `p` of the phrase vocabulary, the phrase
matcher emits a PhraseMatch with text `p` iff some line's lowercased text
contains `p` with a regex word boundary on both ends — a `\b` boundary is a
transition between word characters (letters, digits, underscore) and
non-word characters or the ends of the text, not the claim's non-letter
boundary. -/
theorem phraseMatcher_emits_iff_word_bounded (pk : Str) (vocab : List Str)
    (ls : List Line) (p : Str) (hp : p ∈ vocab) :
    (∃ pm ∈ phraseMatcher pk vocab ls, pm.text = p) ↔
      ∃ l ∈ ls, searchWordBounded p (lowerStr l.text) = true := by
  constructor
  · rintro ⟨pm, hpm, rfl⟩
    exact runPhrases_out_sound pk vocab ls pm hpm
  · rintro ⟨l, hl, hs⟩
    have hkey := runPhrases_key_mem pk vocab ls ⟨[], []⟩ l p hl hp hs
    have hout := runPhrases_inv_out pk vocab ls ⟨[], []⟩ (by simp) _ hkey
    exact hout

/-- C1 witness: the amended theorem applied to the phrase "index finger"
and the single line "the index finger points". -/
theorem phraseMatcher_emits_iff_word_bounded_witness :
    ((str "index finger") ∈ [str "index finger"]) ∧
    ((∃ pm ∈ phraseMatcher (str "page_0001") [str "index finger"]
        [{ text := str "the index finger points", x := 0, y := 0, width := 1, height := 1 }],
        pm.text = str "index finger") ↔
      ∃ l ∈ [({ text := str "the index finger points", x := 0, y := 0,
                width := 1, height := 1 } : Line)],
        searchWordBounded (str "index finger") (lowerStr l.text) = true) :=
  ⟨List.mem_singleton.mpr rfl,
   phraseMatcher_emits_iff_word_bounded _ _ _ _ (List.mem_singleton.mpr rfl)⟩

/-- C1 counterexample: with phrase vocabulary {"index finger"} and the one
line "index finger2", the phrase occurs in the lowercased line bounded on
both ends by non-letter characters or text ends (the claim's condition),
yet the matcher emits no PhraseMatch: the regex `\b` between "finger" and
the digit "2" fails, because digits are word characters. -/
theorem phraseMatcher_claim_boundary_counterexample :
    claimBoundedOccurs (str "index finger") (lowerStr (str "index finger2")) = true ∧
    phraseMatcher (str "page_0001") [str "index finger"]
      [{ text := str "index finger2", x := 0, y := 0, width := 1, height := 1 }] = [] := by
  constructor
  · decide
  · have hs : searchWordBounded (str "index finger")
        (lowerStr (str "index finger2")) = false := by decide
    simp [phraseMatcher, runPhrases, stepLine, stepPhrase, hs]

/-- C2: no two PhraseMatch items of one page share the (phrase, rounded-y)
dedup key; and on two lines holding the same phrase whose y-coordinates
differ only beyond the third decimal (0.1231 vs 0.123123), exactly one
PhraseMatch is emitted. -/
theorem phraseMatcher_keys_nodup :
    (∀ (pk : Str) (vocab : List Str) (ls : List Line),
      (phraseMatcher pk vocab ls).Pairwise
        (fun a b => ¬(a.text = b.text ∧ round3 a.y = round3 b.y))) ∧
    (phraseMatcher (str "page_0001") [str "index finger"]
      [{ text := str "the index finger", x := 0, y := (1231 : Rat)/10000,
         width := 1, height := 1 },
       { text := str "the index finger", x := 0, y := (123123 : Rat)/1000000,
         width := 1, height := 1 }]).length = 1 := by
  constructor
  · intro pk vocab ls
    exact (runPhrases_keys pk vocab ls ⟨[], []⟩ (by simp) (by simp)).2
  · have hs : searchWordBounded (str "index finger")
        (lowerStr (str "the index finger")) = true := by decide
    have hA : round3 ((1231 : Rat)/10000) = (123 : Rat)/1000 := by
      have h := round3_of_lt_half ((1231 : Rat)/10000) 123 (by norm_num) (by norm_num)
      simpa using h
    have hB : round3 ((123123 : Rat)/1000000) = (123 : Rat)/1000 := by
      have h := round3_of_lt_half ((123123 : Rat)/1000000) 123 (by norm_num) (by norm_num)
      simpa using h
    simp [phraseMatcher, runPhrases, stepLine, stepPhrase, hs, hA, hB, mkPhraseMatch]

/-- C3: phrases are matched literally, not as regex: the vocabulary phrase
"3.5 mm" matches the line "the 3.5 mm jack" and does not match the line
"the 35 mm jack" (the '.' in the phrase is escaped, not a wildcard). -/
theorem phrase_literal_matching_scenario :
    (phraseMatcher (str "page_0001") [str "3.5 mm"]
      [{ text := str "the 3.5 mm jack", x := 0, y := 0, width := 1, height := 1 }]).map
        AnnToken.text = [str "3.5 mm"] ∧
    phraseMatcher (str "page_0001") [str "3.5 mm"]
      [{ text := str "the 35 mm jack", x := 0, y := 0, width := 1, height := 1 }] = [] := by
  constructor
  · have hs : searchWordBounded (str "3.5 mm")
        (lowerStr (str "the 3.5 mm jack")) = true := by decide
    simp [phraseMatcher, runPhrases, stepLine, stepPhrase, hs, mkPhraseMatch]
  · have hs : searchWordBounded (str "3.5 mm")
        (lowerStr (str "the 35 mm jack")) = false := by decide
    simp [phraseMatcher, runPhrases, stepLine, stepPhrase, hs]

/-- C4: after the single-word matcher runs on the English-filtered tokens,
a token's `is_learning_word` flag is true iff its lowercased text is a
member of the single-word vocabulary. -/
theorem is_learning_word_iff_mem_vocab (vocab : List Str) (ws : List Token)
    (t : AnnToken) (ht : t ∈ singleWordMatcher vocab (filterEnglish ws)) :
    t.is_learning_word = true ↔ lowerStr t.text ∈ vocab := by
  rcases List.mem_map.mp ht with ⟨w, _, rfl⟩
  simp [annotate]

/-- C4 witness: the theorem applied to the token "Cat" with single-word
vocabulary {"cat"}. -/
theorem is_learning_word_iff_mem_vocab_witness :
    (annotate [str "cat"]
        { text := str "Cat", x := 0, y := 0, width := 0, height := 0, confidence := 1 } ∈
      singleWordMatcher [str "cat"] (filterEnglish
        [{ text := str "Cat", x := 0, y := 0, width := 0, height := 0, confidence := 1 }])) ∧
    ((annotate [str "cat"]
        { text := str "Cat", x := 0, y := 0, width := 0, height := 0,
          confidence := 1 }).is_learning_word = true ↔
      lowerStr (annotate [str "cat"]
        { text := str "Cat", x := 0, y := 0, width := 0, height := 0,
          confidence := 1 }).text ∈ [str "cat"]) :=
  ⟨by decide,
   is_learning_word_iff_mem_vocab [str "cat"]
     [{ text := str "Cat", x := 0, y := 0, width := 0, height := 0, confidence := 1 }]
     (annotate [str "cat"]
       { text := str "Cat", x := 0, y := 0, width := 0, height := 0, confidence := 1 })
     (by decide)⟩

/-- C5 counterexample: the token text "cat\n" — three ASCII letters plus a
trailing newline, hence not "letters and nothing else" — is nevertheless
kept by the English filter, because Python's `$` also matches just before
a single trailing newline. -/
theorem english_filter_trailing_newline_counterexample :
    filterEnglish
        [{ text := str "cat\n", x := 0, y := 0, width := 0, height := 0, confidence := 1 }] =
      [{ text := str "cat\n", x := 0, y := 0, width := 0, height := 0, confidence := 1 }] ∧
    (str "cat\n").all isAsciiLetter = false ∧ pyIsSpace '\n' = true :=
  ⟨rfl, by decide, by decide⟩

lemma allLetters_iff (s : Str) :
    allLetters s = true ↔ s ≠ [] ∧ ∀ c ∈ s, isAsciiLetter c = true := by
  simp [allLetters, List.all_eq_true, List.isEmpty_iff]

lemma englishMatch_iff (s : Str) :
    englishMatch s = true ↔
      (s ≠ [] ∧ ∀ c ∈ s, isAsciiLetter c = true) ∨
      (∃ t, s = t ++ ['\n'] ∧ t ≠ [] ∧ ∀ c ∈ t, isAsciiLetter c = true) := by
  rcases List.eq_nil_or_concat' s with rfl | ⟨t, a, rfl⟩
  · simp [englishMatch, allLetters]
  · constructor
    · intro h
      simp only [englishMatch, Bool.or_eq_true, Bool.and_eq_true, beq_iff_eq] at h
      rcases h with h1 | ⟨hlast, hall⟩
      · exact Or.inl ((allLetters_iff _).mp h1)
      · right
        have ha : a = '\n' := by simpa [List.getLast?_concat] using hlast
        subst ha
        exact ⟨t, rfl,
          (allLetters_iff _).mp (by simpa [List.dropLast_concat] using hall)⟩
    · intro h
      simp only [englishMatch, Bool.or_eq_true, Bool.and_eq_true, beq_iff_eq]
      rcases h with h1 | ⟨u, hu, hne, hall⟩
      · exact Or.inl ((allLetters_iff _).mpr h1)
      · obtain ⟨rfl, hsingle⟩ := List.append_inj' hu rfl
        have ha : a = '\n' := by simpa using hsingle
        subst ha
        right
        refine ⟨by simp [List.getLast?_concat], ?_⟩
        simpa [List.dropLast_concat] using (allLetters_iff _).mpr ⟨hne, hall⟩

/-- C5 (amended): the English filter keeps exactly those tokens whose text
matches Python's `^[a-zA-Z]+$`: one or more ASCII letters, optionally
followed by one trailing newline (Python's `$` semantics); order is
preserved. The claim's listed examples behave as stated. -/
theorem english_filter_characterization (ws : List Token) (s : Str) :
    filterEnglish ws = ws.filter (fun w => englishMatch w.text) ∧
    (filterEnglish ws).Sublist ws ∧
    (∀ w, w ∈ filterEnglish ws ↔ w ∈ ws ∧ englishMatch w.text = true) ∧
    (englishMatch s = true ↔
      (s ≠ [] ∧ ∀ c ∈ s, isAsciiLetter c = true) ∨
      (∃ t, s = t ++ ['\n'] ∧ t ≠ [] ∧ ∀ c ∈ t, isAsciiLetter c = true)) ∧
    englishMatch (str "éclair") = false ∧
    englishMatch (str "123") = false ∧
    englishMatch (str "it" ++ [Char.ofNat 39] ++ str "s") = false ∧
    englishMatch (str "你好") = false ∧
    englishMatch (str "cat") = true ∧
    englishMatch (str "Dog") = true := by
  refine ⟨rfl, List.filter_sublist ws, fun w => ?_, englishMatch_iff s,
    by decide, by decide, by decide, by decide, by decide, by decide⟩
  simp [filterEnglish]

/-- C6: per page, `words` is the annotated English tokens followed by the
phrase matches, in emission order; `total_words_extracted` counts raw OCR
tokens, `english_words` the post-filter tokens, and `matched_words` is the
sum of `single_word_matches` (the flagged tokens) and `multi_word_matches`
(the emitted phrase matches). -/
theorem page_aggregator_spec (pk : Str) (sw mw : List Str) (ws : List Token)
    (ls : List Line) :
    (processPage pk sw mw ws ls).words =
        singleWordMatcher sw (filterEnglish ws) ++ phraseMatcher pk mw ls ∧
    (processPage pk sw mw ws ls).total_words_extracted = ws.length ∧
    (processPage pk sw mw ws ls).english_words = (filterEnglish ws).length ∧
    (processPage pk sw mw ws ls).matched_words =
        (processPage pk sw mw ws ls).single_word_matches +
        (processPage pk sw mw ws ls).multi_word_matches ∧
    (processPage pk sw mw ws ls).single_word_matches =
        ((singleWordMatcher sw (filterEnglish ws)).filter
          (fun t => t.is_learning_word)).length ∧
    (processPage pk sw mw ws ls).multi_word_matches =
        (phraseMatcher pk mw ls).length := by
  refine ⟨rfl, rfl, rfl, rfl, ?_, rfl⟩
  show singleWordMatchCount sw (filterEnglish ws) = _
  rw [singleWordMatchCount, singleWordMatcher, List.filter_map, List.length_map]
  rfl

/-- C9: the single-word matcher only adds the `is_learning_word` flag; at
every position, the text, x, y, width, height and confidence fields of the
output token equal those of the input token. -/
theorem single_word_matcher_frame (vocab : List Str) (ws : List Token) (i : Nat) :
    ((singleWordMatcher vocab ws)[i]?).map AnnToken.text = (ws[i]?).map Token.text ∧
    ((singleWordMatcher vocab ws)[i]?).map AnnToken.x = (ws[i]?).map Token.x ∧
    ((singleWordMatcher vocab ws)[i]?).map AnnToken.y = (ws[i]?).map Token.y ∧
    ((singleWordMatcher vocab ws)[i]?).map AnnToken.width = (ws[i]?).map Token.width ∧
    ((singleWordMatcher vocab ws)[i]?).map AnnToken.height = (ws[i]?).map Token.height ∧
    ((singleWordMatcher vocab ws)[i]?).map AnnToken.confidence =
      (ws[i]?).map Token.confidence := by
  cases h : ws[i]? with
  | none => simp [singleWordMatcher, List.getElem?_map, h]
  | some w => simp [singleWordMatcher, List.getElem?_map, h, annotate]

lemma vocabStep_fst_mem (acc : Finset Str × Finset Str) (x : Str) (w : Str) :
    w ∈ (vocabStep acc x).1 ↔
      w ∈ acc.1 ∨ (cleanLine x = some w ∧ ' ' ∉ w) := by
  cases hx : cleanLine x with
  | none => simp [vocabStep, hx]
  | some u =>
    by_cases hsp : ' ' ∈ u
    · simp only [vocabStep, hx, if_pos hsp, Option.some.injEq]
      constructor
      · exact Or.inl
      · rintro (h | ⟨rfl, hn⟩)
        · exact h
        · exact absurd hsp hn
    · simp only [vocabStep, hx, if_neg hsp, Finset.mem_insert, Option.some.injEq]
      constructor
      · rintro (rfl | h)
        · exact Or.inr ⟨rfl, hsp⟩
        · exact Or.inl h
      · rintro (h | ⟨rfl, h⟩)
        · exact Or.inr h
        · exact Or.inl rfl

lemma vocabStep_snd_mem (acc : Finset Str × Finset Str) (x : Str) (w : Str) :
    w ∈ (vocabStep acc x).2 ↔
      w ∈ acc.2 ∨ (cleanLine x = some w ∧ ' ' ∈ w) := by
  cases hx : cleanLine x with
  | none => simp [vocabStep, hx]
  | some u =>
    by_cases hsp : ' ' ∈ u
    · simp only [vocabStep, hx, if_pos hsp, Finset.mem_insert, Option.some.injEq]
      constructor
      · rintro (rfl | h)
        · exact Or.inr ⟨rfl, hsp⟩
        · exact Or.inl h
      · rintro (h | ⟨rfl, h⟩)
        · exact Or.inr h
        · exact Or.inl rfl
    · simp only [vocabStep, hx, if_neg hsp, Option.some.injEq]
      constructor
      · exact Or.inl
      · rintro (h | ⟨rfl, hn⟩)
        · exact h
        · exact absurd hn hsp

lemma foldl_vocabStep_mem (ls : List Str) :
    ∀ (acc : Finset Str × Finset Str) (w : Str),
      (w ∈ (ls.foldl vocabStep acc).1 ↔
        w ∈ acc.1 ∨ ∃ l ∈ ls, cleanLine l = some w ∧ ' ' ∉ w) ∧
      (w ∈ (ls.foldl vocabStep acc).2 ↔
        w ∈ acc.2 ∨ ∃ l ∈ ls, cleanLine l = some w ∧ ' ' ∈ w) := by
  induction ls with
  | nil => intro acc w; simp
  | cons x xs ih =>
    intro acc w
    simp only [List.foldl_cons]
    refine ⟨?_, ?_⟩
    · rw [(ih (vocabStep acc x) w).1, vocabStep_fst_mem]
      constructor
      · rintro ((h | hx') | ⟨l, hl, hc⟩)
        · exact Or.inl h
        · exact Or.inr ⟨x, List.mem_cons_self _ _, hx'⟩
        · exact Or.inr ⟨l, List.mem_cons_of_mem _ hl, hc⟩
      · rintro (h | ⟨l, hl, hc⟩)
        · exact Or.inl (Or.inl h)
        · rcases List.mem_cons.mp hl with rfl | hl'
          · exact Or.inl (Or.inr hc)
          · exact Or.inr ⟨l, hl', hc⟩
    · rw [(ih (vocabStep acc x) w).2, vocabStep_snd_mem]
      constructor
      · rintro ((h | hx') | ⟨l, hl, hc⟩)
        · exact Or.inl h
        · exact Or.inr ⟨x, List.mem_cons_self _ _, hx'⟩
        · exact Or.inr ⟨l, List.mem_cons_of_mem _ hl, hc⟩
      · rintro (h | ⟨l, hl, hc⟩)
        · exact Or.inl (Or.inl h)
        · rcases List.mem_cons.mp hl with rfl | hl'
          · exact Or.inl (Or.inr hc)
          · exact Or.inr ⟨l, hl', hc⟩

lemma loadVocab_mem_fst (ls : List Str) (w : Str) :
    w ∈ (loadVocab ls).1 ↔ ∃ l ∈ ls, cleanLine l = some w ∧ ' ' ∉ w := by
  have h := (foldl_vocabStep_mem ls (∅, ∅) w).1
  simpa [loadVocab] using h

lemma loadVocab_mem_snd (ls : List Str) (w : Str) :
    w ∈ (loadVocab ls).2 ↔ ∃ l ∈ ls, cleanLine l = some w ∧ ' ' ∈ w := by
  have h := (foldl_vocabStep_mem ls (∅, ∅) w).2
  simpa [loadVocab] using h

/-- C7 counterexample: on the single input line "  #a" — whitespace before
the '#' — the loader as the claim words it (ignore blank lines and lines
starting with '#', then lowercase and trim the rest) keeps the entry "#a",
while the code trims first and therefore ignores the line entirely. -/
theorem vocab_loader_claim_order_counterexample :
    (str "#a") ∈ (loadVocabClaim [str "  #a"]).1 ∧
    (str "#a") ∉ (loadVocab [str "  #a"]).1 ∧
    loadVocab [str "  #a"] = (∅, ∅) := by
  refine ⟨?_, ?_, ?_⟩
  · have h1 : cleanLineClaim (str "  #a") = some (str "#a") := by decide
    have h2 : ¬(' ' ∈ str "#a") := by decide
    simp [loadVocabClaim, vocabStepClaim, h1, h2]
  · rw [loadVocab_mem_fst]
    rintro ⟨x, hx, hc, -⟩
    rw [List.mem_singleton.mp hx] at hc
    exact absurd hc (by decide)
  · have h3 : cleanLine (str "  #a") = none := by decide
    simp [loadVocab, vocabStep, h3]

/-- C7 (amended): the loader trims each line first, ignores lines that are
then empty or start with '#', lowercases the rest, and partitions the
entries by presence of a space character into two disjoint sets; the empty
input yields two empty sets rather than an error. -/
theorem vocab_loader_spec (ls : List Str) (w l : Str) :
    (w ∈ (loadVocab ls).1 ↔ ∃ x ∈ ls, cleanLine x = some w ∧ ' ' ∉ w) ∧
    (w ∈ (loadVocab ls).2 ↔ ∃ x ∈ ls, cleanLine x = some w ∧ ' ' ∈ w) ∧
    (cleanLine l = some w ↔
      pyStrip l ≠ [] ∧ (pyStrip l).head? ≠ some '#' ∧ w = lowerStr (pyStrip l)) ∧
    Disjoint (loadVocab ls).1 (loadVocab ls).2 ∧
    loadVocab ([] : List Str) = (∅, ∅) := by
  refine ⟨loadVocab_mem_fst ls w, loadVocab_mem_snd ls w, ?_, ?_, rfl⟩
  · unfold cleanLine
    by_cases h1 : pyStrip l ≠ [] ∧ (pyStrip l).head? ≠ some '#'
    · rw [if_pos h1]
      simp only [Option.some.injEq]
      constructor
      · intro h
        exact ⟨h1.1, h1.2, h.symm⟩
      · intro h
        exact h.2.2.symm
    · rw [if_neg h1]
      constructor
      · intro h
        cases h
      · intro h
        exact absurd ⟨h.1, h.2.1⟩ h1
  · rw [Finset.disjoint_left]
    intro a ha hb
    rw [loadVocab_mem_fst] at ha
    rw [loadVocab_mem_snd] at hb
    rcases ha with ⟨x1, -, -, hns⟩
    rcases hb with ⟨x2, -, -, hs⟩
    exact hns hs

/-- C8 counterexample: the input line "a\tb" is stored in
SingleWordVocabulary (the partition tests only for a space character), yet
its entry contains an internal whitespace character, the tab. -/
theorem single_vocab_internal_tab_counterexample :
    (str "a\tb") ∈ (loadVocab [str "a\tb"]).1 ∧
    (str "a\tb").get? 1 = some '\t' ∧ pyIsSpace '\t' = true := by
  refine ⟨?_, by decide, by decide⟩
  rw [loadVocab_mem_fst]
  exact ⟨str "a\tb", List.mem_singleton.mpr rfl, by decide, by decide⟩

/-- C8 (amended): no entry of SingleWordVocabulary contains a space
character, and every entry of PhraseVocabulary contains a space; entries
of SingleWordVocabulary may still contain other internal whitespace such
as a tab. -/
theorem vocab_partition_space (ls : List Str) (w : Str) :
    (w ∈ (loadVocab ls).1 → ' ' ∉ w) ∧ (w ∈ (loadVocab ls).2 → ' ' ∈ w) := by
  constructor
  · intro h
    rcases (loadVocab_mem_fst ls w).mp h with ⟨x, -, -, hns⟩
    exact hns
  · intro h
    rcases (loadVocab_mem_snd ls w).mp h with ⟨x, -, -, hs⟩
    exact hs

/-- C8 witness: the partition theorem applied to the loaded vocabulary
{"cat", "index finger"}. -/
theorem vocab_partition_space_witness :
    ((str "cat") ∈ (loadVocab [str "cat", str "index finger"]).1 ∧
      ' ' ∉ str "cat") ∧
    ((str "index finger") ∈ (loadVocab [str "cat", str "index finger"]).2 ∧
      ' ' ∈ str "index finger") := by
  have h1 : (str "cat") ∈ (loadVocab [str "cat", str "index finger"]).1 := by
    rw [loadVocab_mem_fst]
    exact ⟨str "cat", by simp, by decide, by decide⟩
  have h2 : (str "index finger") ∈ (loadVocab [str "cat", str "index finger"]).2 := by
    rw [loadVocab_mem_snd]
    exact ⟨str "index finger", by simp, by decide, by decide⟩
  exact ⟨⟨h1, (vocab_partition_space _ _).1 h1⟩,
         ⟨h2, (vocab_partition_space _ _).2 h2⟩⟩

/-- C10: the loader's result is order- and duplication-insensitive:
permuting the input lines, or repeating a line, yields the same pair of
vocabulary sets. -/
theorem vocab_loader_set_semantics :
    (∀ ls₁ ls₂ : List Str, ls₁.Perm ls₂ → loadVocab ls₁ = loadVocab ls₂) ∧
    (∀ (l : Str) (ls : List Str), loadVocab (l :: l :: ls) = loadVocab (l :: ls)) := by
  have hext : ∀ ls₁ ls₂ : List Str,
      (∀ x, x ∈ ls₁ ↔ x ∈ ls₂) → loadVocab ls₁ = loadVocab ls₂ := by
    intro ls₁ ls₂ hmem
    have h1 : (loadVocab ls₁).1 = (loadVocab ls₂).1 := by
      apply Finset.ext
      intro w
      rw [loadVocab_mem_fst, loadVocab_mem_fst]
      constructor
      · rintro ⟨x, hx, hc⟩
        exact ⟨x, (hmem x).mp hx, hc⟩
      · rintro ⟨x, hx, hc⟩
        exact ⟨x, (hmem x).mpr hx, hc⟩
    have h2 : (loadVocab ls₁).2 = (loadVocab ls₂).2 := by
      apply Finset.ext
      intro w
      rw [loadVocab_mem_snd, loadVocab_mem_snd]
      constructor
      · rintro ⟨x, hx, hc⟩
        exact ⟨x, (hmem x).mp hx, hc⟩
      · rintro ⟨x, hx, hc⟩
        exact ⟨x, (hmem x).mpr hx, hc⟩
    exact Prod.ext h1 h2
  constructor
  · intro ls₁ ls₂ hperm
    exact hext ls₁ ls₂ (fun x => hperm.mem_iff)
  · intro l ls
    apply hext
    intro x
    simp only [List.mem_cons]
    tauto

/-- C10 witness: the theorem applied to the concrete permutation
["cat", "dog"] ~ ["dog", "cat"]. -/
theorem vocab_loader_set_semantics_witness :
    (([str "cat", str "dog"] : List Str).Perm [str "dog", str "cat"]) ∧
    loadVocab [str "cat", str "dog"] = loadVocab [str "dog", str "cat"] :=
  ⟨List.Perm.swap _ _ _,
   vocab_loader_set_semantics.1 _ _ (List.Perm.swap _ _ _)⟩

